import Mathlib

/-!
Verification development for the keyed async query cache described by the
repository's design spec (a React-Query-style server-state cache).

The repository ships the cache as a library dependency together with demo
consumers; the cache core itself (key codec, query entries, deduplicating
fetch executor, staleness and cache-lifetime policy, trigger coordinator)
is therefore modelled here from the spec, as a small operational state
machine over explicit cache states.  The demo consumer `RqSuperHeroDetails`
is translated directly from the source.
-/

namespace ReactQuery

/-! ## QueryKey codec (spec section 4.1) -/

/-- A JSON-like query key segment: scalars, arrays and objects, where an
object is a list of properties in insertion order. -/
inductive JsonVal : Type where
  | str (s : String)
  | num (n : Int)
  | boolV (b : Bool)
  | nullV
  | arr (xs : List JsonVal)
  | obj (props : List (String × JsonVal))

/-- Join serialized fragments with a comma separator. -/
def sepJoin : List (List Char) → List Char
  | [] => []
  | [x] => x
  | x :: xs => x ++ ',' :: sepJoin xs

mutual

/-- Modelled from the spec: the QueryKey codec `canonicalize(key) -> CanonicalKey`
is part of the cache library and absent from the repository sources.  It
serializes a JSON-like value to a canonical character sequence, sorting the
serialized properties of every object so that property insertion order does
not affect the result. -/
def canon : JsonVal → List Char
  | .str s => 's' :: s.data
  | .num n => 'n' :: (toString n).data
  | .boolV b => 'b' :: (toString b).data
  | .nullV => ['z']
  | .arr xs => 'A' :: '(' :: (sepJoin (canonList xs) ++ [')'])
  | .obj props =>
      'O' :: '(' ::
        (sepJoin (List.insertionSort (fun a b => a ≤ b) (canonProps props)) ++ [')'])

/-- Canonical serializations of the elements of an array key segment. -/
def canonList : List JsonVal → List (List Char)
  | [] => []
  | x :: xs => canon x :: canonList xs

/-- Serialized forms of an object's properties, each one rendered as
`key=value` with the value canonicalized. -/
def canonProps : List (String × JsonVal) → List (List Char)
  | [] => []
  | (k, v) :: l => (k.data ++ '=' :: canon v) :: canonProps l

end

mutual

/-- Structural equality of JSON-like keys, presented as derivations:
scalars agree, arrays agree pointwise, and objects agree either pointwise
(with structurally equal values) or after a permutation of their property
lists; closed under transitivity so that reorderings at every depth are
reachable. -/
inductive StructEq : JsonVal → JsonVal → Type where
  | strC (s : String) : StructEq (.str s) (.str s)
  | numC (n : Int) : StructEq (.num n) (.num n)
  | boolC (b : Bool) : StructEq (.boolV b) (.boolV b)
  | nullC : StructEq .nullV .nullV
  | arrC {xs ys : List JsonVal} : StructEqL xs ys → StructEq (.arr xs) (.arr ys)
  | objC {l₁ l₂ : List (String × JsonVal)} : StructEqP l₁ l₂ →
      StructEq (.obj l₁) (.obj l₂)
  | objPerm {l₁ l₂ : List (String × JsonVal)} : l₁.Perm l₂ →
      StructEq (.obj l₁) (.obj l₂)
  | transC {a b c : JsonVal} : StructEq a b → StructEq b c → StructEq a c

/-- Pointwise structural equality of array element lists. -/
inductive StructEqL : List JsonVal → List JsonVal → Type where
  | nilL : StructEqL [] []
  | consL {x y : JsonVal} {xs ys : List JsonVal} : StructEq x y →
      StructEqL xs ys → StructEqL (x :: xs) (y :: ys)

/-- Pointwise structural equality of object property lists: keys equal in
order, values structurally equal. -/
inductive StructEqP : List (String × JsonVal) → List (String × JsonVal) → Type where
  | nilP : StructEqP [] []
  | consP {k : String} {v w : JsonVal} {l₁ l₂ : List (String × JsonVal)} :
      StructEq v w → StructEqP l₁ l₂ → StructEqP ((k, v) :: l₁) ((k, w) :: l₂)

end

/-! ## QueryEntry data model (spec section 3) -/

/-- Lifecycle status of a query entry. -/
inductive Status : Type where
  | idle
  | loading
  | success
  | error
deriving DecidableEq

/-- Modelled from the spec: the QueryEntry record of the cache library
(status, data, error, timestamps, staleness configuration, subscriber
count, in-flight handle, eviction deadline).  `inFlight` carries the
sequence number of the entry's current run; `lastAppliedSeq` records the
sequence number of the run whose completion last updated the entry. -/
structure Entry (α : Type) where
  status : Status
  data : Option α
  error : Option String
  updatedAt : Nat
  isFetching : Bool
  staleTime : Nat
  cacheTime : Nat
  subscriberCount : Nat
  inFlight : Option Nat
  evictAt : Option Nat
  invalid : Bool
  lastAppliedSeq : Nat
deriving DecidableEq

/-- Modelled from the spec: per-subscription configuration recognized by
the cache library (spec section 6), with the documented defaults
(`staleTime` 0, `cacheTime` five minutes, `enabled` true). -/
structure Config : Type where
  staleTime : Nat := 0
  cacheTime : Nat := 300000
  enabled : Bool := true
deriving DecidableEq

/-- The default configuration, all options left at their defaults. -/
def defCfg : Config := {}

/-- Modelled from the spec: the cache registry mapping canonical keys to
entries, together with the executor's monotonically increasing run
sequence counter and the current clock. -/
structure Cache (α : Type) where
  entries : List (String × Entry α)
  nextSeq : Nat
  now : Nat
deriving DecidableEq

/-- The empty cache; run sequence numbers start at 1. -/
def Cache.init (α : Type) : Cache α := ⟨[], 1, 0⟩

/-- Look up the entry stored under canonical key `k`. -/
def findEntry (k : String) (c : Cache α) : Option (Entry α) :=
  (c.entries.find? (fun p => p.1 == k)).map Prod.snd

/-- Rewrite the entry stored under key `k` with `f`, leaving other keys
untouched. -/
def setEntry (k : String) (f : Entry α → Entry α)
    (l : List (String × Entry α)) : List (String × Entry α) :=
  l.map (fun p => if p.1 == k then (p.1, f p.2) else p)

/-! ## Staleness policy (spec section 4.4) -/

/-- Modelled from the spec: an entry is stale when `now - updatedAt`
reaches its `staleTime`, or when it has been explicitly invalidated. -/
def isStale (e : Entry α) (now : Nat) : Bool :=
  e.invalid || decide (e.staleTime ≤ now - e.updatedAt)

/-- Modelled from the spec: a read of an existing entry triggers a
background fetch iff the entry has status `error` or is stale. -/
def shouldRefetch (e : Entry α) (now : Nat) : Bool :=
  (e.status == Status.error) || isStale e now

/-! ## Deduplicating fetch executor (spec section 4.3) -/

/-- Start a run on one entry: flip `isFetching` and record the run's
sequence number as the in-flight handle. -/
def startRunE (seq : Nat) (e : Entry α) : Entry α :=
  { e with isFetching := true, inFlight := some seq }

/-- Modelled from the spec: the executor starts a new run for key `k`,
consuming the cache's next sequence number.  Only called when no run is in
flight for `k`. -/
def startRun (k : String) (c : Cache α) : Cache α :=
  { c with entries := setEntry k (startRunE c.nextSeq) c.entries,
           nextSeq := c.nextSeq + 1 }

/-- A fresh entry as created by the first subscription, `Loading`
immediately when a fetch is triggered and `Idle` otherwise. -/
def newEntry (α : Type) (cfg : Config) (fetch : Bool) (seq : Nat) : Entry α :=
  { status := if fetch then Status.loading else Status.idle
    data := none
    error := none
    updatedAt := 0
    isFetching := fetch
    staleTime := cfg.staleTime
    cacheTime := cfg.cacheTime
    subscriberCount := 1
    inFlight := if fetch then some seq else none
    evictAt := none
    invalid := false
    lastAppliedSeq := 0 }

/-- Register one more subscriber on an entry and cancel its eviction
timer. -/
def attachSub (e : Entry α) : Entry α :=
  { e with subscriberCount := e.subscriberCount + 1, evictAt := none }

/-- The cache after one more subscriber attaches to the entry for `k`. -/
def subAttach (k : String) (c : Cache α) : Cache α :=
  { c with entries := setEntry k attachSub c.entries }

/-- Modelled from the spec: `subscribe` registers a consumer against the
entry for `k` (creating it if absent), cancels any pending eviction timer,
and asks the executor for a fetch when the read policy requires one; if a
run is already in flight the subscriber attaches to it instead of invoking
the fetch function again. -/
def subscribeOp (k : String) (cfg : Config) (c : Cache α) : Cache α :=
  match findEntry k c with
  | none =>
      if cfg.enabled then
        { entries := c.entries ++ [(k, newEntry α cfg true c.nextSeq)]
          nextSeq := c.nextSeq + 1
          now := c.now }
      else
        { c with entries := c.entries ++ [(k, newEntry α cfg false 0)] }
  | some e =>
      if cfg.enabled && shouldRefetch e c.now then
        match e.inFlight with
        | some _ => subAttach k c
        | none => startRun k (subAttach k c)
      else subAttach k c

/-- Drop one subscriber from an entry; when the count reaches zero the
eviction timer is armed for `now + cacheTime`. -/
def detachSub (now : Nat) (e : Entry α) : Entry α :=
  { e with subscriberCount := e.subscriberCount - 1
           evictAt := if e.subscriberCount - 1 == 0 then some (now + e.cacheTime) else e.evictAt }

/-- Modelled from the spec: unsubscription decrements the subscriber
count; when it reaches zero an eviction timer of length `cacheTime` is
started. -/
def unsubscribeOp (k : String) (c : Cache α) : Cache α :=
  { c with entries := setEntry k (detachSub c.now) c.entries }

/-- Entry update applied by a successful completion at time `now` of run
`seq`: `Success`, fresh data, error cleared, timestamps and bookkeeping
updated. -/
def applySuccess (now : Nat) (seq : Nat) (d : α) (e : Entry α) : Entry α :=
  { e with status := Status.success
           data := some d
           error := none
           updatedAt := now
           isFetching := false
           inFlight := none
           invalid := false
           lastAppliedSeq := seq }

/-- Entry update applied by a failed completion of run `seq`: `Error` with
the error stored, while `data` is left untouched. -/
def applyFailure (seq : Nat) (err : String) (e : Entry α) : Entry α :=
  { e with status := Status.error
           error := some err
           isFetching := false
           inFlight := none
           lastAppliedSeq := seq }

/-- Modelled from the spec: completion of run `seq` for key `k`.  The
result is applied only when `seq` is still the entry's in-flight run
(sequence-number guard); a superseded completion is discarded.  On success
the entry becomes `Success` with fresh data; on failure it becomes `Error`
with the error recorded and `data` left untouched. -/
def completeOp (k : String) (seq : Nat) (res : Except String α) (c : Cache α) :
    Cache α :=
  match findEntry k c with
  | none => c
  | some e =>
      if e.inFlight = some seq then
        match res with
        | .ok d =>
            { c with entries := setEntry k (applySuccess c.now seq d) c.entries }
        | .error err =>
            { c with entries := setEntry k (applyFailure seq err) c.entries }
      else c

/-! ## Trigger coordinator (spec section 4.6) -/

/-- Flag an entry as explicitly invalidated (stale for the next read). -/
def markInvalid (e : Entry α) : Entry α :=
  { e with invalid := true }

/-- The cache after the entry for `k` is marked invalidated. -/
def invalMark (k : String) (c : Cache α) : Cache α :=
  { c with entries := setEntry k markInvalid c.entries }

/-- Modelled from the spec: `invalidate` marks the entry stale
immediately; when subscribers exist it additionally triggers a refetch
(deduplicated against any in-flight run), otherwise the entry is only
marked for the next read. -/
def invalidateOp (k : String) (c : Cache α) : Cache α :=
  match findEntry k c with
  | none => c
  | some e =>
      if e.subscriberCount == 0 then invalMark k c
      else
        match e.inFlight with
        | some _ => invalMark k c
        | none => startRun k (invalMark k c)

/-- Modelled from the spec: `setData` synchronously replaces the cached
data through an updater function, with no network activity and no other
field touched. -/
def setDataOp (k : String) (f : Option α → α) (c : Cache α) : Cache α :=
  { c with entries := setEntry k (fun e => { e with data := some (f e.data) }) c.entries }

/-- Modelled from the spec: manual `refetch` forces a run regardless of
staleness, still deduplicated against an in-flight run. -/
def refetchOp (k : String) (c : Cache α) : Cache α :=
  match findEntry k c with
  | none => c
  | some e =>
      match e.inFlight with
      | some _ => c
      | none => startRun k c

/-- The automatic refetch triggers of the coordinator. -/
inductive TriggerKind : Type where
  | mount
  | refocus
  | reconnect
  | interval
deriving DecidableEq

/-- Modelled from the spec: decide whether an automatic trigger of kind
`t` fires a refetch on `e` right now; interval polling ignores staleness,
the other kinds follow the read policy. -/
def triggerFire (t : TriggerKind) (e : Entry α) (now : Nat) : Bool :=
  match t with
  | .interval => true
  | _ => shouldRefetch e now

/-- Modelled from the spec: an automatic trigger for a subscription with
configuration `cfg`.  Disabled subscriptions never fetch.  Mount, refocus
and reconnect triggers are subject to the staleness policy; fixed-interval
polling fires regardless of staleness.  All triggers are deduplicated
against an in-flight run. -/
def triggerOp (t : TriggerKind) (k : String) (cfg : Config) (c : Cache α) :
    Cache α :=
  if cfg.enabled then
    match findEntry k c with
    | none => c
    | some e =>
        if triggerFire t e c.now then
          match e.inFlight with
          | some _ => c
          | none => startRun k c
        else c
  else c

/-- Is an eviction deadline due at time `n`? -/
def evictDue (e : Entry α) (n : Nat) : Bool :=
  match e.evictAt with
  | some t => decide (t ≤ n)
  | none => false

/-- Modelled from the spec: the clock advances by `dt` and every entry
whose subscriber count is zero and whose eviction timer has expired is
removed from memory. -/
def tickOp (dt : Nat) (c : Cache α) : Cache α :=
  { entries := c.entries.filter
      (fun p => !(p.2.subscriberCount == 0 && evictDue p.2 (c.now + dt)))
    nextSeq := c.nextSeq
    now := c.now + dt }

/-! ## Traces -/

/-- One externally observable cache operation. -/
inductive Op (α : Type) : Type where
  | sub (k : String) (cfg : Config)
  | unsub (k : String)
  | complete (k : String) (seq : Nat) (res : Except String α)
  | inval (k : String)
  | setD (k : String) (f : Option α → α)
  | refetchK (k : String)
  | trig (t : TriggerKind) (k : String) (cfg : Config)
  | tick (dt : Nat)

/-- Apply one operation to the cache. -/
def applyOp : Op α → Cache α → Cache α
  | .sub k cfg, c => subscribeOp k cfg c
  | .unsub k, c => unsubscribeOp k c
  | .complete k seq res, c => completeOp k seq res c
  | .inval k, c => invalidateOp k c
  | .setD k f, c => setDataOp k f c
  | .refetchK k, c => refetchOp k c
  | .trig t k cfg, c => triggerOp t k cfg c
  | .tick dt, c => tickOp dt c

/-- Run a list of operations left to right. -/
def runOps (ops : List (Op α)) (c : Cache α) : Cache α :=
  ops.foldl (fun c op => applyOp op c) c

/-! ## Subscriber snapshots and the RqSuperHeroDetails consumer -/

/-- The read-only snapshot a subscriber receives (spec section 6). -/
structure Snapshot (α : Type) where
  status : Status
  data : Option α
  error : Option String
  isFetching : Bool
  isLoading : Bool
deriving DecidableEq

/-- The snapshot of an entry; `isLoading` is true exactly during the
initial load. -/
def snapshot (e : Entry α) : Snapshot α :=
  ⟨e.status, e.data, e.error, e.isFetching, e.status == Status.loading⟩

/-- The payload served for one superhero, as consumed by the details
screen (`name` and `alterego` fields of the fetched record). -/
structure Hero where
  name : String
  alterego : String
deriving DecidableEq

/-- The render function of `RqSuperHeroDetails`: returns the loading text
while `isLoading`, and otherwise dereferences the fetched record without
any error or presence guard; `none` models the crash of dereferencing
absent data. -/
def renderDetails (snap : Snapshot Hero) : Option String :=
  if snap.isLoading then some "Loading..."
  else
    match snap.data with
    | some h => some (h.name ++ " is   " ++ h.alterego)
    | none => none

/-- Does an operation respect the per-key precondition of the
superhero-details scenario at key `k`: every subscription to `k` is
enabled and every completed fetch for `k` succeeded?  Operations on other
keys are unrestricted — their fetches may fail and their subscriptions may
be disabled. -/
def goodOpAt (k : String) : Op α → Bool
  | .sub k2 cfg => !(k2 == k) || cfg.enabled
  | .complete k2 _ res =>
      !(k2 == k) ||
        match res with
        | .ok _ => true
        | .error _ => false
  | _ => true

/-! ## Association-list lemmas -/

theorem setEntry_find (k : String) (f : Entry α → Entry α)
    (l : List (String × Entry α)) :
    (setEntry k f l).find? (fun p => p.1 == k) =
      ((l.find? (fun p => p.1 == k)).map (fun p => (p.1, f p.2))) := by
  induction l with
  | nil => rfl
  | cons a t ih =>
      show ((if a.1 == k then (a.1, f a.2) else a) :: setEntry k f t).find?
            (fun p => p.1 == k) = _
      cases h : a.1 == k with
      | true => simp [List.find?_cons, h]
      | false => simp [List.find?_cons, h, ih]

theorem findEntry_setEntry (k : String) (f : Entry α → Entry α) (c : Cache α)
    (c2 : Cache α) (hent : c2.entries = setEntry k f c.entries) :
    findEntry k c2 = (findEntry k c).map f := by
  simp only [findEntry, hent, setEntry_find]
  cases c.entries.find? (fun p => p.1 == k) <;> simp

theorem find_append_single_of_none {q : String × Entry α → Bool}
    {l : List (String × Entry α)} (h : l.find? q = none)
    (x : String × Entry α) (hx : q x = true) :
    (l ++ [x]).find? q = some x := by
  induction l with
  | nil => simp [List.find?, hx]
  | cons a t ih =>
      simp only [List.find?] at h ⊢
      cases hqa : q a with
      | true => rw [hqa] at h; exact absurd h (by simp)
      | false =>
          rw [hqa] at h
          simpa [hqa] using ih h

theorem find_filter_of_keep {q g : String × Entry α → Bool}
    {l : List (String × Entry α)} {x : String × Entry α}
    (h : l.find? q = some x) (hg : g x = true) :
    (l.filter g).find? q = some x := by
  induction l with
  | nil => simp at h
  | cons a t ih =>
      simp only [List.find?] at h
      cases hqa : q a with
      | true =>
          rw [hqa] at h
          simp only [Option.some.injEq] at h
          subst h
          simp [List.filter, hg, List.find?, hqa]
      | false =>
          rw [hqa] at h
          cases hga : g a with
          | true => simp [List.filter, hga, List.find?, hqa, ih h]
          | false => simp [List.filter, hga, ih h]

theorem findEntry_mem {k : String} {c : Cache α} {e : Entry α}
    (h : findEntry k c = some e) : ∃ p ∈ c.entries, p.2 = e := by
  simp only [findEntry, Option.map_eq_some'] at h
  obtain ⟨p, hp, hpe⟩ := h
  exact ⟨p, List.mem_of_find?_eq_some hp, hpe⟩

/-! ## The sequence-number invariant (spec sections 4.3 and 5) -/

/-- Entry-level part of the sequence-number invariant, relative to the
cache's next run number `N`: the last applied run and any in-flight run
were allocated before `N`, and an in-flight run is strictly newer than the
last applied one. -/
def EInv (N : Nat) (e : Entry α) : Prop :=
  e.lastAppliedSeq < N ∧ ∀ q, e.inFlight = some q → e.lastAppliedSeq < q ∧ q < N

/-- The cache-wide sequence-number invariant. -/
def SeqInv (c : Cache α) : Prop :=
  1 ≤ c.nextSeq ∧ ∀ p ∈ c.entries, EInv c.nextSeq p.2

theorem EInv_mono {N M : Nat} {e : Entry α} (h : N ≤ M) (he : EInv N e) :
    EInv M e := by
  obtain ⟨h1, h2⟩ := he
  exact ⟨lt_of_lt_of_le h1 h, fun q hq => ⟨(h2 q hq).1, lt_of_lt_of_le (h2 q hq).2 h⟩⟩

theorem EInv_setEntry {k : String} {N M : Nat} {f : Entry α → Entry α}
    {l : List (String × Entry α)} (hNM : N ≤ M)
    (hf : ∀ e, EInv N e → EInv M (f e)) (h : ∀ p ∈ l, EInv N p.2) :
    ∀ p ∈ setEntry k f l, EInv M p.2 := by
  intro p hp
  simp only [setEntry, List.mem_map] at hp
  obtain ⟨q, hq, hpq⟩ := hp
  subst hpq
  split
  · exact hf q.2 (h q hq)
  · exact EInv_mono hNM (h q hq)

theorem EInv_startRunE {N : Nat} (e : Entry α) (h : EInv N e) :
    EInv (N + 1) (startRunE N e) := by
  obtain ⟨h1, h2⟩ := h
  refine ⟨Nat.lt_succ_of_lt h1, ?_⟩
  intro q hq
  simp only [startRunE, Option.some.injEq] at hq
  subst hq
  exact ⟨h1, Nat.lt_succ_self _⟩

theorem SeqInv_setEntry_frame {c : Cache α} {k : String} {f : Entry α → Entry α}
    (hf : ∀ e : Entry α, EInv c.nextSeq e → EInv c.nextSeq (f e)) (h : SeqInv c) :
    SeqInv { c with entries := setEntry k f c.entries } :=
  ⟨h.1, EInv_setEntry le_rfl hf h.2⟩

theorem SeqInv_startRun {c : Cache α} (k : String) (h : SeqInv c) :
    SeqInv (startRun k c) := by
  refine ⟨le_trans h.1 (Nat.le_succ _), ?_⟩
  exact EInv_setEntry (Nat.le_succ _) (EInv_startRunE) h.2

theorem EInv_newEntry {N : Nat} (cfg : Config) (fetch : Bool) (h1 : 1 ≤ N) :
    EInv (N + 1) (newEntry α cfg fetch N) := by
  constructor
  · exact Nat.lt_succ_of_lt h1
  · intro q hq
    cases fetch with
    | true =>
        simp only [newEntry, if_true, Option.some.injEq] at hq
        subst hq
        exact ⟨h1, Nat.lt_succ_self _⟩
    | false => simp [newEntry] at hq

theorem SeqInv_subAttach {c : Cache α} (k : String) (h : SeqInv c) :
    SeqInv (subAttach k c) :=
  SeqInv_setEntry_frame (fun _ h0 => h0) h

theorem SeqInv_newEntries {c : Cache α} (k : String) (cfg : Config)
    (fetch : Bool) (h : SeqInv c) :
    ∀ p ∈ c.entries ++ [(k, newEntry α cfg fetch c.nextSeq)],
      EInv (c.nextSeq + 1) p.2 := by
  intro p hp
  rcases List.mem_append.mp hp with hp | hp
  · exact EInv_mono (Nat.le_succ _) (h.2 p hp)
  · simp only [List.mem_singleton] at hp
    subst hp
    exact EInv_newEntry cfg fetch h.1

theorem SeqInv_subscribe {c : Cache α} (k : String) (cfg : Config)
    (h : SeqInv c) : SeqInv (subscribeOp k cfg c) := by
  cases hfe : findEntry k c with
  | none =>
      simp only [subscribeOp, hfe]
      split
      · exact ⟨le_trans h.1 (Nat.le_succ _), SeqInv_newEntries k cfg true h⟩
      · refine ⟨h.1, ?_⟩
        intro p hp
        rcases List.mem_append.mp hp with hp | hp
        · exact h.2 p hp
        · simp only [List.mem_singleton] at hp
          subst hp
          refine ⟨h.1, ?_⟩
          intro q hq
          simp [newEntry] at hq
  | some e =>
      simp only [subscribeOp, hfe]
      split
      · cases e.inFlight with
        | some q => exact SeqInv_subAttach k h
        | none => exact SeqInv_startRun k (SeqInv_subAttach k h)
      · exact SeqInv_subAttach k h

theorem SeqInv_complete {c : Cache α} (k : String) (seq : Nat)
    (res : Except String α) (h : SeqInv c) : SeqInv (completeOp k seq res c) := by
  cases hfe : findEntry k c with
  | none => simpa only [completeOp, hfe] using h
  | some e =>
      simp only [completeOp, hfe]
      split
      · rename_i hif
        have hseq : seq < c.nextSeq := by
          obtain ⟨p, hp, hpe⟩ := findEntry_mem hfe
          have hE : EInv c.nextSeq e := hpe ▸ h.2 p hp
          exact (hE.2 seq hif).2
        cases res with
        | ok d =>
            refine SeqInv_setEntry_frame ?_ h
            intro e0 h0
            exact ⟨hseq, by intro q hq; simp [applySuccess] at hq⟩
        | error err =>
            refine SeqInv_setEntry_frame ?_ h
            intro e0 h0
            exact ⟨hseq, by intro q hq; simp [applyFailure] at hq⟩
      · exact h

theorem SeqInv_invalidate {c : Cache α} (k : String) (h : SeqInv c) :
    SeqInv (invalidateOp k c) := by
  cases hfe : findEntry k c with
  | none => simpa only [invalidateOp, hfe] using h
  | some e =>
      simp only [invalidateOp, hfe]
      split
      · exact SeqInv_setEntry_frame (fun _ h0 => h0) h
      · cases e.inFlight with
        | some q => exact SeqInv_setEntry_frame (fun _ h0 => h0) h
        | none => exact SeqInv_startRun k (SeqInv_setEntry_frame (fun _ h0 => h0) h)

theorem SeqInv_refetch {c : Cache α} (k : String) (h : SeqInv c) :
    SeqInv (refetchOp k c) := by
  cases hfe : findEntry k c with
  | none => simpa only [refetchOp, hfe] using h
  | some e =>
      simp only [refetchOp, hfe]
      cases e.inFlight with
      | some q => exact h
      | none => exact SeqInv_startRun k h

theorem SeqInv_trigger {c : Cache α} (t : TriggerKind) (k : String)
    (cfg : Config) (h : SeqInv c) : SeqInv (triggerOp t k cfg c) := by
  cases hen : cfg.enabled with
  | false => simpa only [triggerOp, hen, Bool.false_eq_true, if_false] using h
  | true =>
      cases hfe : findEntry k c with
      | none => simpa only [triggerOp, hen, if_true, hfe] using h
      | some e =>
          simp only [triggerOp, hen, if_true, hfe]
          split
          · cases e.inFlight with
            | some q => exact h
            | none => exact SeqInv_startRun k h
          · exact h

theorem SeqInv_apply (op : Op α) {c : Cache α} (h : SeqInv c) :
    SeqInv (applyOp op c) := by
  cases op with
  | sub k cfg => exact SeqInv_subscribe k cfg h
  | unsub k => exact SeqInv_setEntry_frame (fun _ h0 => h0) h
  | complete k seq res => exact SeqInv_complete k seq res h
  | inval k => exact SeqInv_invalidate k h
  | setD k f => exact SeqInv_setEntry_frame (fun _ h0 => h0) h
  | refetchK k => exact SeqInv_refetch k h
  | trig t k cfg => exact SeqInv_trigger t k cfg h
  | tick dt =>
      exact ⟨h.1, fun p hp => h.2 p (List.mem_of_mem_filter hp)⟩

theorem SeqInv_runOps (ops : List (Op α)) {c : Cache α} (h : SeqInv c) :
    SeqInv (runOps ops c) := by
  induction ops generalizing c with
  | nil => exact h
  | cons op t ih => exact ih (SeqInv_apply op h)

theorem SeqInv_init : SeqInv (Cache.init α) := by
  refine ⟨le_rfl, ?_⟩
  intro p hp
  simp [Cache.init] at hp

/-! ## C1: superseded runs never overwrite newer state -/

/-- C1: for every key and every pair of fetch runs against it, a run whose
sequence number is at most the sequence number of the run that last
updated the entry can no longer change the cache when it completes: in
every reachable cache state, its completion is discarded, so a lower-
numbered (superseded) run never overwrites entry state set by a later
run. -/
theorem superseded_run_never_overwrites (ops : List (Op α)) (k : String)
    (seq : Nat) (res : Except String α) (e : Entry α)
    (he : findEntry k (runOps ops (Cache.init α)) = some e)
    (hseq : seq ≤ e.lastAppliedSeq) :
    completeOp k seq res (runOps ops (Cache.init α)) =
      runOps ops (Cache.init α) := by
  have hinv : SeqInv (runOps ops (Cache.init α)) := SeqInv_runOps ops SeqInv_init
  obtain ⟨p, hp, hpe⟩ := findEntry_mem he
  have hE : EInv (runOps ops (Cache.init α)).nextSeq e := hpe ▸ hinv.2 p hp
  simp only [completeOp, he]
  cases hif : e.inFlight with
  | none => rw [if_neg (by simp)]
  | some q =>
      have hlt := (hE.2 q hif).1
      rw [if_neg (by simp only [Option.some.injEq]; omega)]

/-- A concrete trace for the C1 witness: one subscription whose run 1
completes successfully. -/
def c1Trace : List (Op Nat) :=
  [Op.sub "movies" defCfg, Op.complete "movies" 1 (Except.ok 7)]

/-- The entry reached by `c1Trace`. -/
def c1Entry : Entry Nat :=
  { status := Status.success, data := some 7, error := none, updatedAt := 0
    isFetching := false, staleTime := 0, cacheTime := 300000
    subscriberCount := 1, inFlight := none, evictAt := none, invalid := false
    lastAppliedSeq := 1 }

/-- Witness for C1: after run 1 has updated the entry, a late completion
of the superseded run 0 leaves the cache untouched. -/
theorem superseded_run_never_overwrites_witness :
    findEntry "movies" (runOps c1Trace (Cache.init Nat)) = some c1Entry ∧
      completeOp "movies" 0 (Except.error "late response")
          (runOps c1Trace (Cache.init Nat)) =
        runOps c1Trace (Cache.init Nat) :=
  ⟨by decide, superseded_run_never_overwrites c1Trace "movies" 0
    (Except.error "late response") c1Entry (by decide) (by decide)⟩

/-! ## Behaviour of subscribe -/

theorem subscribe_inflight_attaches {c : Cache α} {k : String} {cfg : Config}
    {e : Entry α} {q : Nat} (he : findEntry k c = some e)
    (hq : e.inFlight = some q) : subscribeOp k cfg c = subAttach k c := by
  simp only [subscribeOp, he]
  split
  · rw [hq]
  · rfl

theorem subscribe_fresh {c : Cache α} {k : String} {cfg : Config} {e : Entry α}
    (he : findEntry k c = some e)
    (hg : (cfg.enabled && shouldRefetch e c.now) = false) :
    subscribeOp k cfg c = subAttach k c := by
  simp only [subscribeOp, he]
  rw [if_neg (by simp [hg])]

theorem subscribe_refetches {c : Cache α} {k : String} {cfg : Config}
    {e : Entry α} (he : findEntry k c = some e) (hen : cfg.enabled = true)
    (hsr : shouldRefetch e c.now = true) (hif : e.inFlight = none) :
    subscribeOp k cfg c = startRun k (subAttach k c) := by
  simp only [subscribeOp, he, hen, hsr, Bool.and_self, if_true, hif]

theorem subscribe_creates {c : Cache α} {k : String} {cfg : Config}
    (he : findEntry k c = none) (hen : cfg.enabled = true) :
    subscribeOp k cfg c =
      { entries := c.entries ++ [(k, newEntry α cfg true c.nextSeq)]
        nextSeq := c.nextSeq + 1
        now := c.now } := by
  simp only [subscribeOp, he, hen, if_true]

theorem findEntry_subAttach (k : String) (c : Cache α) :
    findEntry k (subAttach k c) = (findEntry k c).map attachSub :=
  findEntry_setEntry k attachSub c _ rfl

theorem findEntry_append_new {c : Cache α} {k : String} (x : Entry α)
    (he : findEntry k c = none) (N M : Nat) :
    findEntry k { entries := c.entries ++ [(k, x)], nextSeq := N, now := M }
      = some x := by
  have hnone : c.entries.find? (fun p => p.1 == k) = none := by
    simp only [findEntry] at he
    exact Option.map_eq_none'.mp he
  simp only [findEntry]
  rw [find_append_single_of_none hnone (k, x) (by simp)]
  rfl

theorem subscribe_many_attach (m : Nat) {c : Cache α} {k : String}
    {cfg : Config} {e : Entry α} {q : Nat} (he : findEntry k c = some e)
    (hq : e.inFlight = some q) :
    (runOps (List.replicate m (Op.sub k cfg)) c).nextSeq = c.nextSeq ∧
      ∃ e2, findEntry k (runOps (List.replicate m (Op.sub k cfg)) c) = some e2 ∧
        e2.inFlight = some q ∧
        e2.subscriberCount = e.subscriberCount + m := by
  induction m generalizing c e with
  | zero => exact ⟨rfl, e, he, hq, rfl⟩
  | succ m ih =>
      have hstep : runOps (List.replicate (m + 1) (Op.sub k cfg)) c =
          runOps (List.replicate m (Op.sub k cfg)) (subAttach k c) := by
        rw [List.replicate_succ]
        show runOps (List.replicate m (Op.sub k cfg)) (subscribeOp k cfg c) = _
        rw [subscribe_inflight_attaches he hq]
      have he2 : findEntry k (subAttach k c) = some (attachSub e) := by
        rw [findEntry_subAttach, he]
        rfl
      obtain ⟨h1, e2, h2, h3, h4⟩ := ih he2 hq
      rw [hstep]
      refine ⟨h1, e2, h2, h3, ?_⟩
      rw [h4]
      simp only [attachSub]
      omega

/-! ## C2: at most one in-flight fetch per key, dedup of concurrent subscribes -/

/-- C2: the deduplication guarantee.  First, a subscribe against an entry
with an in-flight run only attaches: the run sequence counter does not
advance (the fetch function is not invoked again) and the in-flight handle
is unchanged.  Second, when N+1 consumers subscribe to an absent key
back-to-back (the same scheduling tick), exactly one run is started —
`nextSeq` advances by exactly one — and all N+1 subscribers share the
single resulting in-flight handle. -/
theorem dedup_single_inflight (α : Type) :
    (∀ (c : Cache α) (k : String) (cfg : Config) (e : Entry α) (q : Nat),
      findEntry k c = some e → e.inFlight = some q →
      (subscribeOp k cfg c).nextSeq = c.nextSeq ∧
        findEntry k (subscribeOp k cfg c) = some (attachSub e) ∧
        (attachSub e).inFlight = some q) ∧
    (∀ (c : Cache α) (k : String) (cfg : Config) (n : Nat),
      findEntry k c = none → cfg.enabled = true →
      (runOps (List.replicate (n + 1) (Op.sub k cfg)) c).nextSeq = c.nextSeq + 1 ∧
        ∃ e2,
          findEntry k (runOps (List.replicate (n + 1) (Op.sub k cfg)) c) = some e2 ∧
          e2.inFlight = some c.nextSeq ∧ e2.subscriberCount = n + 1) := by
  constructor
  · intro c k cfg e q he hq
    rw [subscribe_inflight_attaches he hq, findEntry_subAttach, he]
    exact ⟨rfl, rfl, hq⟩
  · intro c k cfg n he hen
    have hstep : runOps (List.replicate (n + 1) (Op.sub k cfg)) c =
        runOps (List.replicate n (Op.sub k cfg)) (subscribeOp k cfg c) := by
      rw [List.replicate_succ]
      rfl
    have hcreate := subscribe_creates he hen
    have he2 : findEntry k (subscribeOp k cfg c) =
        some (newEntry α cfg true c.nextSeq) := by
      rw [hcreate]
      exact findEntry_append_new _ he _ _
    have hq2 : (newEntry α cfg true c.nextSeq).inFlight = some c.nextSeq := rfl
    obtain ⟨h1, e2, h2, h3, h4⟩ := subscribe_many_attach n he2 hq2
    rw [hstep]
    refine ⟨by rw [h1, hcreate], e2, h2, h3, ?_⟩
    rw [h4]
    show (1 : Nat) + n = n + 1
    omega

/-- Witness for C2: two subscriptions to a fresh key in the same tick
start exactly one run (sequence counter goes from 1 to 2) and share the
in-flight handle of run 1. -/
theorem dedup_single_inflight_witness :
    (runOps (List.replicate 2 (Op.sub "heroes" defCfg)) (Cache.init Nat)).nextSeq
        = (Cache.init Nat).nextSeq + 1 ∧
      ∃ e2,
        findEntry "heroes"
            (runOps (List.replicate 2 (Op.sub "heroes" defCfg)) (Cache.init Nat))
          = some e2 ∧
        e2.inFlight = some (Cache.init Nat).nextSeq ∧ e2.subscriberCount = 2 :=
  (dedup_single_inflight Nat).2 (Cache.init Nat) "heroes" defCfg 1
    (by decide) (by decide)

/-! ## C4: a failed fetch stores the error but keeps last-known-good data -/

/-- C4: when the in-flight run for a key completes with a failure, the
entry moves to status `Error` with the error recorded, while its `data`
field — the last successfully fetched value — is left exactly as it was,
so last-known-good data stays readable alongside the error until some
later operation explicitly replaces it. -/
theorem failure_preserves_data {c : Cache α} {k : String} {seq : Nat}
    {err : String} {e : Entry α} (he : findEntry k c = some e)
    (hif : e.inFlight = some seq) :
    findEntry k (completeOp k seq (Except.error err) c) =
        some (applyFailure seq err e) ∧
      (applyFailure seq err e).status = Status.error ∧
      (applyFailure seq err e).error = some err ∧
      (applyFailure seq err e).data = e.data ∧
      (applyFailure seq err e).updatedAt = e.updatedAt := by
  refine ⟨?_, rfl, rfl, rfl, rfl⟩
  have hco : completeOp k seq (Except.error err) c =
      { c with entries := setEntry k (applyFailure seq err) c.entries } := by
    simp only [completeOp, he, hif, if_pos]
  rw [hco, findEntry_setEntry k (applyFailure seq err) c _ rfl, he]
  rfl

/-- The trace for the C4 witness: data 7 is fetched successfully by run 1,
a manual refetch starts run 2, which is about to fail. -/
def c4Trace : List (Op Nat) :=
  [Op.sub "super-heros" defCfg, Op.complete "super-heros" 1 (Except.ok 7),
   Op.refetchK "super-heros"]

/-- The entry reached by `c4Trace`: successful data 7 with run 2 in
flight. -/
def c4Entry : Entry Nat :=
  { status := Status.success, data := some 7, error := none, updatedAt := 0
    isFetching := true, staleTime := 0, cacheTime := 300000
    subscriberCount := 1, inFlight := some 2, evictAt := none, invalid := false
    lastAppliedSeq := 1 }

/-- Witness for C4: when run 2 fails, the entry shows the error while the
previously fetched data 7 is still present. -/
theorem failure_preserves_data_witness :
    findEntry "super-heros" (runOps c4Trace (Cache.init Nat)) = some c4Entry ∧
      findEntry "super-heros"
          (completeOp "super-heros" 2 (Except.error "Request failed")
            (runOps c4Trace (Cache.init Nat))) =
        some (applyFailure 2 "Request failed" c4Entry) ∧
      (applyFailure 2 "Request failed" c4Entry).data = some 7 :=
  ⟨by decide,
    (failure_preserves_data (by decide) (by decide)).1,
    by decide⟩

/-! ## C7: setData updates the snapshot synchronously with no fetch -/

/-- C7: `setData` with an updater function synchronously rewrites the
cached data (and hence the snapshot delivered to subscribers), leaves the
run counter and the clock untouched (no fetch is triggered), and changes
no other field of the entry — in particular `isFetching`, `status`,
`error`, the timestamps, the subscriber count and the in-flight handle all
keep their prior values. -/
theorem setData_sync_no_fetch {c : Cache α} {k : String} {f : Option α → α}
    {e : Entry α} (he : findEntry k c = some e) :
    (setDataOp k f c).nextSeq = c.nextSeq ∧
      (setDataOp k f c).now = c.now ∧
      findEntry k (setDataOp k f c) = some { e with data := some (f e.data) } ∧
      ({ e with data := some (f e.data) } : Entry α).isFetching = e.isFetching ∧
      snapshot { e with data := some (f e.data) } =
        { snapshot e with data := some (f e.data) } := by
  refine ⟨rfl, rfl, ?_, rfl, rfl⟩
  rw [findEntry_setEntry k (fun e0 => { e0 with data := some (f e0.data) }) c _ rfl, he]
  rfl

/-- Witness for C7: doubling the cached value 7 via `setData` yields data
14 with every other field unchanged and no run started. -/
theorem setData_sync_no_fetch_witness :
    (setDataOp "movies" (fun d => 2 * d.getD 0) (runOps c1Trace (Cache.init Nat))).nextSeq
        = (runOps c1Trace (Cache.init Nat)).nextSeq ∧
      (setDataOp "movies" (fun d => 2 * d.getD 0) (runOps c1Trace (Cache.init Nat))).now
        = (runOps c1Trace (Cache.init Nat)).now ∧
      findEntry "movies"
          (setDataOp "movies" (fun d => 2 * d.getD 0) (runOps c1Trace (Cache.init Nat)))
        = some { c1Entry with data := some 14 } ∧
      ({ c1Entry with data := some 14 } : Entry Nat).isFetching = c1Entry.isFetching ∧
      snapshot { c1Entry with data := some 14 } =
        { snapshot c1Entry with data := some 14 } :=
  setData_sync_no_fetch (by decide)

/-! ## C6: invalidate marks stale, refetching only when subscribers exist -/

theorem findEntry_startRun (k : String) (c : Cache α) :
    findEntry k (startRun k c) = (findEntry k c).map (startRunE c.nextSeq) :=
  findEntry_setEntry k (startRunE c.nextSeq) c _ rfl

theorem findEntry_invalMark (k : String) (c : Cache α) :
    findEntry k (invalMark k c) = (findEntry k c).map markInvalid :=
  findEntry_setEntry k markInvalid c _ rfl

theorem invalidate_zero_subs {c : Cache α} {k : String} {e : Entry α}
    (he : findEntry k c = some e) (h0 : e.subscriberCount = 0) :
    invalidateOp k c = invalMark k c := by
  simp only [invalidateOp, he, h0]
  rfl

theorem invalidate_with_subs {c : Cache α} {k : String} {e : Entry α}
    (he : findEntry k c = some e) (hn : e.subscriberCount ≠ 0)
    (hif : e.inFlight = none) :
    invalidateOp k c = startRun k (invalMark k c) := by
  have hg : (e.subscriberCount == 0) = false := by simp [hn]
  simp only [invalidateOp, he, hg, Bool.false_eq_true, if_false, hif]

theorem shouldRefetch_markInvalid (e : Entry α) (now2 : Nat) :
    shouldRefetch (markInvalid e) now2 = true := by
  simp [shouldRefetch, isStale, markInvalid]

/-- C6: `invalidate` on an entry with zero subscribers marks it stale —
afterwards it is stale at every instant — while leaving the in-flight
handle, the fetching flag and the run counter untouched (no network call);
the next enabled subscribe then starts exactly one run.  On an entry with
subscribers (and no run in flight) `invalidate` marks it stale and starts
a refetch immediately. -/
theorem invalidate_policy (α : Type) :
    (∀ (c : Cache α) (k : String) (e : Entry α), findEntry k c = some e →
      e.subscriberCount = 0 →
      (invalidateOp k c).nextSeq = c.nextSeq ∧
        findEntry k (invalidateOp k c) = some (markInvalid e) ∧
        (markInvalid e).inFlight = e.inFlight ∧
        (markInvalid e).isFetching = e.isFetching ∧
        (∀ now2, isStale (markInvalid e) now2 = true) ∧
        (∀ cfg : Config, cfg.enabled = true → e.inFlight = none →
          (subscribeOp k cfg (invalidateOp k c)).nextSeq = c.nextSeq + 1)) ∧
    (∀ (c : Cache α) (k : String) (e : Entry α), findEntry k c = some e →
      e.subscriberCount ≠ 0 → e.inFlight = none →
      (invalidateOp k c).nextSeq = c.nextSeq + 1 ∧
        findEntry k (invalidateOp k c) =
          some (startRunE c.nextSeq (markInvalid e)) ∧
        (startRunE c.nextSeq (markInvalid e)).isFetching = true ∧
        (startRunE c.nextSeq (markInvalid e)).invalid = true) := by
  constructor
  · intro c k e he h0
    have hmk := invalidate_zero_subs he h0
    have hfe2 : findEntry k (invalidateOp k c) = some (markInvalid e) := by
      rw [hmk, findEntry_invalMark, he]
      rfl
    refine ⟨by rw [hmk]; rfl, hfe2, rfl, rfl,
      fun now2 => by simp [isStale, markInvalid], ?_⟩
    intro cfg hen hif
    have hif2 : (markInvalid e).inFlight = none := hif
    have hsub := subscribe_refetches hfe2 hen
      (shouldRefetch_markInvalid e (invalidateOp k c).now) hif2
    rw [hsub]
    show (invalidateOp k c).nextSeq + 1 = c.nextSeq + 1
    rw [hmk]
    rfl
  · intro c k e he hn hif
    have hrun := invalidate_with_subs he hn hif
    refine ⟨by rw [hrun]; rfl, ?_, rfl, rfl⟩
    rw [hrun, findEntry_startRun, findEntry_invalMark, he]
    rfl

/-- The cache reached by `c6Trace`: a successful entry whose only
subscriber has unsubscribed. -/
def c6Trace : List (Op Nat) :=
  [Op.sub "super-heros" defCfg, Op.complete "super-heros" 1 (Except.ok 7),
   Op.unsub "super-heros"]

/-- The entry reached by `c6Trace`. -/
def c6Entry : Entry Nat :=
  { status := Status.success, data := some 7, error := none, updatedAt := 0
    isFetching := false, staleTime := 0, cacheTime := 300000
    subscriberCount := 0, inFlight := none, evictAt := some 300000
    invalid := false, lastAppliedSeq := 1 }

/-- Witness for C6: invalidating the subscriber-free entry performs no
run, marks it stale, and the next subscribe starts exactly one run. -/
theorem invalidate_policy_witness :
    (invalidateOp "super-heros" (runOps c6Trace (Cache.init Nat))).nextSeq =
        (runOps c6Trace (Cache.init Nat)).nextSeq ∧
      findEntry "super-heros"
          (invalidateOp "super-heros" (runOps c6Trace (Cache.init Nat)))
        = some (markInvalid c6Entry) ∧
      (subscribeOp "super-heros" defCfg
          (invalidateOp "super-heros" (runOps c6Trace (Cache.init Nat)))).nextSeq
        = (runOps c6Trace (Cache.init Nat)).nextSeq + 1 := by
  obtain ⟨h1, h2, _, _, _, h6⟩ :=
    (invalidate_policy Nat).1 (runOps c6Trace (Cache.init Nat)) "super-heros"
      c6Entry (by decide) (by decide)
  exact ⟨h1, h2, h6 defCfg (by decide) (by decide)⟩

/-! ## C5: eviction waits for cacheTime and is cancelled by resubscription -/

theorem findEntry_unsub (k : String) (c : Cache α) :
    findEntry k (unsubscribeOp k c) = (findEntry k c).map (detachSub c.now) :=
  findEntry_setEntry k (detachSub c.now) c _ rfl

theorem tick_keeps_entry {c : Cache α} {k : String} {e : Entry α} {dt : Nat}
    (he : findEntry k c = some e)
    (hkeep : (e.subscriberCount == 0 && evictDue e (c.now + dt)) = false) :
    findEntry k (tickOp dt c) = some e := by
  simp only [findEntry, Option.map_eq_some'] at he
  obtain ⟨p, hp, hpe⟩ := he
  have hg : (fun p => !(p.2.subscriberCount == 0 && evictDue p.2 (c.now + dt))) p
      = true := by
    simp only [hpe, hkeep, Bool.not_false]
  simp only [findEntry, tickOp]
  rw [find_filter_of_keep hp hg, Option.map_some', hpe]

theorem ticks_keep_zero {dts : List Nat} {c : Cache α} {k : String}
    {e : Entry α} {T : Nat} (he : findEntry k c = some e)
    (_hc : e.subscriberCount = 0) (hev : e.evictAt = some T)
    (hlt : c.now + dts.sum < T) :
    findEntry k (runOps (dts.map Op.tick) c) = some e := by
  induction dts generalizing c with
  | nil => exact he
  | cons dt rest ih =>
      have hsum : c.now + dt < T ∧ (c.now + dt) + rest.sum < T := by
        rw [List.sum_cons] at hlt
        omega
      have hkeep : (e.subscriberCount == 0 && evictDue e (c.now + dt)) = false := by
        have := hsum.1
        simp [evictDue, hev]
        omega
      exact ih (tick_keeps_entry he hkeep) hsum.2

theorem ticks_keep_subscribed {dts : List Nat} {c : Cache α} {k : String}
    {e : Entry α} (he : findEntry k c = some e)
    (hc : e.subscriberCount ≠ 0) :
    findEntry k (runOps (dts.map Op.tick) c) = some e := by
  induction dts generalizing c with
  | nil => exact he
  | cons dt rest ih =>
      have hkeep : (e.subscriberCount == 0 && evictDue e (c.now + dt)) = false := by
        simp [hc]
      exact ih (tick_keeps_entry he hkeep)

/-- C5: eviction policy.  First, after the last subscriber leaves, the
entry survives every sequence of clock ticks whose total duration is
below its `cacheTime`: the cache never removes it earlier than `cacheTime`
after the subscriber count reached zero (the eviction deadline is armed at
exactly `now + cacheTime`).  Second, a new subscriber arriving while the
entry is still present cancels the eviction timer (`evictAt` becomes
`none`), and the entry then survives every further sequence of ticks — it
is not removed at all. -/
theorem eviction_respects_cache_time (α : Type) :
    (∀ (c : Cache α) (k : String) (e : Entry α) (dts : List Nat),
      findEntry k c = some e → e.subscriberCount = 1 →
      dts.sum < e.cacheTime →
      findEntry k (runOps (dts.map Op.tick) (unsubscribeOp k c)) =
          some (detachSub c.now e) ∧
        (detachSub c.now e).subscriberCount = 0 ∧
        (detachSub c.now e).evictAt = some (c.now + e.cacheTime)) ∧
    (∀ (c : Cache α) (k : String) (cfg : Config) (e : Entry α) (dts : List Nat),
      findEntry k c = some e →
      ∃ e2, findEntry k (subscribeOp k cfg c) = some e2 ∧
        e2.subscriberCount = e.subscriberCount + 1 ∧ e2.evictAt = none ∧
        findEntry k (runOps (dts.map Op.tick) (subscribeOp k cfg c)) = some e2) := by
  constructor
  · intro c k e dts he h1 hlt
    have hd1 : (detachSub c.now e).subscriberCount = 0 := by
      simp [detachSub, h1]
    have hd2 : (detachSub c.now e).evictAt = some (c.now + e.cacheTime) := by
      simp [detachSub, h1]
    have hfe : findEntry k (unsubscribeOp k c) = some (detachSub c.now e) := by
      rw [findEntry_unsub, he]
      rfl
    refine ⟨?_, hd1, hd2⟩
    apply ticks_keep_zero hfe hd1 hd2
    show c.now + dts.sum < c.now + e.cacheTime
    omega
  · intro c k cfg e dts he
    by_cases hg : (cfg.enabled && shouldRefetch e c.now) = true
    · cases hif : e.inFlight with
      | some q =>
          have hs : subscribeOp k cfg c = subAttach k c :=
            subscribe_inflight_attaches he hif
          have hfe : findEntry k (subscribeOp k cfg c) = some (attachSub e) := by
            rw [hs, findEntry_subAttach, he]
            rfl
          exact ⟨attachSub e, hfe, rfl, rfl,
            ticks_keep_subscribed hfe (by simp [attachSub])⟩
      | none =>
          simp only [Bool.and_eq_true] at hg
          obtain ⟨hen, hsr⟩ := hg
          have hs := subscribe_refetches he hen hsr hif
          have hfe : findEntry k (subscribeOp k cfg c)
              = some (startRunE c.nextSeq (attachSub e)) := by
            rw [hs, findEntry_startRun, findEntry_subAttach, he]
            rfl
          exact ⟨startRunE c.nextSeq (attachSub e), hfe, rfl, rfl,
            ticks_keep_subscribed hfe (by simp [startRunE, attachSub])⟩
    · have hs := subscribe_fresh he (by simpa using hg)
      have hfe : findEntry k (subscribeOp k cfg c) = some (attachSub e) := by
        rw [hs, findEntry_subAttach, he]
        rfl
      exact ⟨attachSub e, hfe, rfl, rfl,
        ticks_keep_subscribed hfe (by simp [attachSub])⟩

/-- Witness for C5: with the five-minute default `cacheTime`, the
unsubscribed entry survives two ticks totalling 200000 ms. -/
theorem eviction_respects_cache_time_witness :
    findEntry "movies"
        (runOps ([100000, 100000].map Op.tick)
          (unsubscribeOp "movies" (runOps c1Trace (Cache.init Nat)))) =
        some (detachSub (runOps c1Trace (Cache.init Nat)).now c1Entry) ∧
      (detachSub (runOps c1Trace (Cache.init Nat)).now c1Entry).subscriberCount
        = 0 ∧
      (detachSub (runOps c1Trace (Cache.init Nat)).now c1Entry).evictAt
        = some ((runOps c1Trace (Cache.init Nat)).now + c1Entry.cacheTime) :=
  (eviction_respects_cache_time Nat).1 (runOps c1Trace (Cache.init Nat))
    "movies" c1Entry [100000, 100000] (by decide) (by decide) (by decide)

/-! ## C3: the staleness read policy -/

theorem shouldRefetch_eq_true_iff {e : Entry α} (hinv : e.invalid = false)
    (now2 : Nat) :
    shouldRefetch e now2 = true ↔
      (e.status = Status.error ∨ e.staleTime ≤ now2 - e.updatedAt) := by
  simp [shouldRefetch, isStale, hinv]

theorem triggerFire_non_interval {t : TriggerKind}
    (ht : t ≠ TriggerKind.interval) (e : Entry α) (now2 : Nat) :
    triggerFire t e now2 = shouldRefetch e now2 := by
  cases t with
  | interval => exact absurd rfl ht
  | mount => rfl
  | refocus => rfl
  | reconnect => rfl

theorem trigger_fires {c : Cache α} {t : TriggerKind} {k : String}
    {cfg : Config} {e : Entry α} (he : findEntry k c = some e)
    (hen : cfg.enabled = true) (hf : triggerFire t e c.now = true)
    (hif : e.inFlight = none) : triggerOp t k cfg c = startRun k c := by
  simp only [triggerOp, hen, if_true, he, hf, hif]

theorem trigger_skips {c : Cache α} {t : TriggerKind} {k : String}
    {cfg : Config} {e : Entry α} (he : findEntry k c = some e)
    (hen : cfg.enabled = true) (hf : triggerFire t e c.now = false) :
    triggerOp t k cfg c = c := by
  simp only [triggerOp, hen, if_true, he, hf, Bool.false_eq_true, if_false]

/-- C3 (amended): the staleness read policy for non-interval triggers.  A
subscribe to an absent key starts a fetch; a subscribe — or a mount,
refocus or reconnect trigger — against an existing, not-invalidated entry
with no run in flight starts a fetch exactly when the entry has status
`Error` or satisfies `now - updatedAt >= staleTime`; and a fresh `Success`
entry is served purely from cache: the subscriber gets the cached
snapshot, `isFetching` keeps its value, and no run is started.  (Interval
ticks are exempt: per the trigger coordinator they fire regardless of
staleness, see the accompanying counterexample.) -/
theorem read_trigger_policy (α : Type) :
    (∀ (c : Cache α) (k : String) (cfg : Config), cfg.enabled = true →
      findEntry k c = none →
      (subscribeOp k cfg c).nextSeq = c.nextSeq + 1) ∧
    (∀ (c : Cache α) (k : String) (cfg : Config) (e : Entry α),
      cfg.enabled = true → findEntry k c = some e → e.inFlight = none →
      e.invalid = false →
      ((subscribeOp k cfg c).nextSeq = c.nextSeq + 1 ↔
        (e.status = Status.error ∨ e.staleTime ≤ c.now - e.updatedAt))) ∧
    (∀ (c : Cache α) (t : TriggerKind) (k : String) (cfg : Config) (e : Entry α),
      t ≠ TriggerKind.interval → cfg.enabled = true → findEntry k c = some e →
      e.inFlight = none → e.invalid = false →
      ((triggerOp t k cfg c).nextSeq = c.nextSeq + 1 ↔
        (e.status = Status.error ∨ e.staleTime ≤ c.now - e.updatedAt))) ∧
    (∀ (c : Cache α) (k : String) (cfg : Config) (e : Entry α),
      cfg.enabled = true → findEntry k c = some e → e.invalid = false →
      e.status ≠ Status.error → ¬ (e.staleTime ≤ c.now - e.updatedAt) →
      subscribeOp k cfg c = subAttach k c ∧
        findEntry k (subscribeOp k cfg c) = some (attachSub e) ∧
        (attachSub e).isFetching = e.isFetching ∧
        (attachSub e).status = e.status ∧
        (attachSub e).data = e.data ∧
        (subscribeOp k cfg c).nextSeq = c.nextSeq) := by
  have hfresh : ∀ (c : Cache α) (k : String) (cfg : Config) (e : Entry α),
      findEntry k c = some e → shouldRefetch e c.now = false →
      subscribeOp k cfg c = subAttach k c := by
    intro c k cfg e he hsr
    exact subscribe_fresh he (by simp [hsr])
  refine ⟨?_, ?_, ?_, ?_⟩
  · intro c k cfg hen he
    rw [subscribe_creates he hen]
  · intro c k cfg e hen he hif hinv
    constructor
    · intro hns
      by_contra hR
      have hsr : shouldRefetch e c.now = false := by
        cases hsr : shouldRefetch e c.now
        · rfl
        · exact absurd ((shouldRefetch_eq_true_iff hinv c.now).mp hsr) hR
      rw [hfresh c k cfg e he hsr] at hns
      have : c.nextSeq = c.nextSeq + 1 := hns
      omega
    · intro hR
      rw [subscribe_refetches he hen
        ((shouldRefetch_eq_true_iff hinv c.now).mpr hR) hif]
      rfl
  · intro c t k cfg e ht hen he hif hinv
    constructor
    · intro hns
      by_contra hR
      have hsr : shouldRefetch e c.now = false := by
        cases hsr : shouldRefetch e c.now
        · rfl
        · exact absurd ((shouldRefetch_eq_true_iff hinv c.now).mp hsr) hR
      rw [trigger_skips he hen (by rw [triggerFire_non_interval ht, hsr])] at hns
      omega
    · intro hR
      rw [trigger_fires he hen (by
        rw [triggerFire_non_interval ht]
        exact (shouldRefetch_eq_true_iff hinv c.now).mpr hR) hif]
      rfl
  · intro c k cfg e hen he hinv hst hstale
    have hsr : shouldRefetch e c.now = false := by
      cases hsr : shouldRefetch e c.now
      · rfl
      · rcases (shouldRefetch_eq_true_iff hinv c.now).mp hsr with h | h
        · exact absurd h hst
        · exact absurd h hstale
    have hs := hfresh c k cfg e he hsr
    refine ⟨hs, ?_, rfl, rfl, rfl, by rw [hs]; rfl⟩
    rw [hs, findEntry_subAttach, he]
    rfl

/-- The configuration used by the stale-time scenario: `staleTime` 30
seconds, everything else at its default. -/
def c3Cfg : Config := { staleTime := 30000 }

/-- The trace of the stale-time scenario: one subscription whose run 1
completes successfully at time 0. -/
def c3Trace : List (Op Nat) :=
  [Op.sub "super-heros" c3Cfg, Op.complete "super-heros" 1 (Except.ok 42)]

/-- The cache reached by `c3Trace`. -/
def c3Cache : Cache Nat := runOps c3Trace (Cache.init Nat)

/-- The entry reached by `c3Trace`: a fresh `Success` entry. -/
def c3Entry : Entry Nat :=
  { status := Status.success, data := some 42, error := none, updatedAt := 0
    isFetching := false, staleTime := 30000, cacheTime := 300000
    subscriberCount := 1, inFlight := none, evictAt := none, invalid := false
    lastAppliedSeq := 1 }

/-- Counterexample to C3 as stated: the claim includes interval ticks in
the fetch-iff-missing-or-error-or-stale rule, but an interval tick on a
fresh, non-invalidated `Success` entry (present, not `Error`, and with
`now - updatedAt < staleTime`) still starts a fetch — the run counter
advances — because fixed-interval polling fires regardless of
staleness. -/
theorem interval_tick_fetches_fresh_entry :
    findEntry "super-heros" c3Cache = some c3Entry ∧
      c3Entry.status = Status.success ∧
      c3Entry.invalid = false ∧
      ¬ (c3Entry.staleTime ≤ c3Cache.now - c3Entry.updatedAt) ∧
      (triggerOp TriggerKind.interval "super-heros" c3Cfg c3Cache).nextSeq =
        c3Cache.nextSeq + 1 :=
  ⟨by decide, rfl, rfl, by decide, by decide⟩

/-- Witness for C3 (amended): a second subscribe to the fresh 30-second
stale-time entry is served from cache — cached `Success` snapshot, same
data, `isFetching` unchanged (false), and no new run. -/
theorem read_trigger_policy_witness :
    subscribeOp "super-heros" c3Cfg c3Cache = subAttach "super-heros" c3Cache ∧
      findEntry "super-heros" (subscribeOp "super-heros" c3Cfg c3Cache) =
        some (attachSub c3Entry) ∧
      (attachSub c3Entry).isFetching = c3Entry.isFetching ∧
      (attachSub c3Entry).status = c3Entry.status ∧
      (attachSub c3Entry).data = c3Entry.data ∧
      (subscribeOp "super-heros" c3Cfg c3Cache).nextSeq = c3Cache.nextSeq :=
  (read_trigger_policy Nat).2.2.2 c3Cache "super-heros" c3Cfg c3Entry
    (by decide) (by decide) (by decide) (by decide) (by decide)

/-! ## C9: disabled subscriptions never fetch automatically -/

/-- A configuration with `enabled := false` and everything else at its
default. -/
def disabledCfg : Config := { enabled := false }

/-- C9: a subscription configured with `enabled = false` never triggers an
automatic fetch.  Every automatic trigger (mount, refocus, reconnect,
interval) is a no-op; a first subscribe creates an `Idle` entry with no
run and no fetching flag and does not advance the run counter; a repeat
subscribe only attaches.  With the default configuration `enabled` is true
and a first subscribe does start a fetch. -/
theorem disabled_never_auto_fetches (α : Type) :
    (∀ (c : Cache α) (t : TriggerKind) (k : String) (cfg : Config),
      cfg.enabled = false → triggerOp t k cfg c = c) ∧
    (∀ (c : Cache α) (k : String) (cfg : Config), cfg.enabled = false →
      findEntry k c = none →
      (subscribeOp k cfg c).nextSeq = c.nextSeq ∧
        findEntry k (subscribeOp k cfg c) = some (newEntry α cfg false 0) ∧
        (newEntry α cfg false 0).inFlight = none ∧
        (newEntry α cfg false 0).isFetching = false ∧
        (newEntry α cfg false 0).status = Status.idle) ∧
    (∀ (c : Cache α) (k : String) (cfg : Config) (e : Entry α),
      cfg.enabled = false → findEntry k c = some e →
      subscribeOp k cfg c = subAttach k c ∧
        (subscribeOp k cfg c).nextSeq = c.nextSeq) ∧
    (defCfg.enabled = true ∧
      ∀ (c : Cache α) (k : String), findEntry k c = none →
        (subscribeOp k defCfg c).nextSeq = c.nextSeq + 1) := by
  refine ⟨?_, ?_, ?_, rfl, ?_⟩
  · intro c t k cfg hd
    simp only [triggerOp, hd, Bool.false_eq_true, if_false]
  · intro c k cfg hd he
    have hs : subscribeOp k cfg c =
        { c with entries := c.entries ++ [(k, newEntry α cfg false 0)] } := by
      simp only [subscribeOp, he, hd, Bool.false_eq_true, if_false]
    refine ⟨by rw [hs], ?_, rfl, rfl, rfl⟩
    rw [hs]
    exact findEntry_append_new _ he _ _
  · intro c k cfg e hd he
    have hs := subscribe_fresh he
      (show (cfg.enabled && shouldRefetch e c.now) = false by simp [hd])
    exact ⟨hs, by rw [hs]; rfl⟩
  · intro c k he
    rw [subscribe_creates he rfl]

/-- Witness for C9: with `enabled := false`, a refocus trigger is a no-op
and a first subscribe starts no run. -/
theorem disabled_never_auto_fetches_witness :
    triggerOp TriggerKind.refocus "user" disabledCfg (Cache.init Nat) =
        Cache.init Nat ∧
      (subscribeOp "user" disabledCfg (Cache.init Nat)).nextSeq =
        (Cache.init Nat).nextSeq :=
  ⟨(disabled_never_auto_fetches Nat).1 (Cache.init Nat) TriggerKind.refocus
      "user" disabledCfg rfl,
    ((disabled_never_auto_fetches Nat).2.1 (Cache.init Nat) "user" disabledCfg
      rfl (by decide)).1⟩

/-! ## C8: canonicalization identifies structurally equal keys -/

theorem canonProps_eq_map (l : List (String × JsonVal)) :
    canonProps l = l.map (fun p => p.1.data ++ '=' :: canon p.2) := by
  induction l with
  | nil => rfl
  | cons a t ih =>
      cases a with
      | mk k v => simp [canonProps, ih]

theorem canon_obj_perm {l₁ l₂ : List (String × JsonVal)} (h : l₁.Perm l₂) :
    canon (JsonVal.obj l₁) = canon (JsonVal.obj l₂) := by
  have hp : (canonProps l₁).Perm (canonProps l₂) := by
    rw [canonProps_eq_map, canonProps_eq_map]
    exact h.map _
  have hperm : (List.insertionSort (fun a b => a ≤ b) (canonProps l₁)).Perm
      (List.insertionSort (fun a b => a ≤ b) (canonProps l₂)) :=
    ((List.perm_insertionSort _ _).trans hp).trans
      (List.perm_insertionSort _ _).symm
  have hs1 : List.Sorted (fun a b : List Char => a ≤ b)
      (List.insertionSort (fun a b => a ≤ b) (canonProps l₁)) :=
    List.sorted_insertionSort _ _
  have hs2 : List.Sorted (fun a b : List Char => a ≤ b)
      (List.insertionSort (fun a b => a ≤ b) (canonProps l₂)) :=
    List.sorted_insertionSort _ _
  have hs := List.eq_of_perm_of_sorted hperm hs1 hs2
  simp only [canon, hs]

mutual

theorem canon_structEq : ∀ {a b : JsonVal}, StructEq a b → canon a = canon b
  | _, _, .strC s => rfl
  | _, _, .numC n => rfl
  | _, _, .boolC b => rfl
  | _, _, .nullC => rfl
  | _, _, .arrC hl => by
      have h2 := canonList_structEq hl
      simp only [canon, h2]
  | _, _, .objC hp => by
      have h2 := canonProps_structEq hp
      simp only [canon, h2]
  | _, _, .objPerm hperm => canon_obj_perm hperm
  | _, _, .transC h1 h2 => (canon_structEq h1).trans (canon_structEq h2)

theorem canonList_structEq :
    ∀ {xs ys : List JsonVal}, StructEqL xs ys → canonList xs = canonList ys
  | _, _, .nilL => rfl
  | _, _, .consL h1 h2 => by
      have e1 := canon_structEq h1
      have e2 := canonList_structEq h2
      simp only [canonList, e1, e2]

theorem canonProps_structEq :
    ∀ {l₁ l₂ : List (String × JsonVal)}, StructEqP l₁ l₂ →
      canonProps l₁ = canonProps l₂
  | _, _, .nilP => rfl
  | _, _, .consP h1 h2 => by
      have e1 := canon_structEq h1
      have e2 := canonProps_structEq h2
      simp only [canonProps, e1, e2]

end

/-- C8: structurally equal JSON-like keys — equal scalars, pointwise equal
arrays, and objects equal up to reordering of their property lists at any
depth — canonicalize to character-for-character identical canonical keys,
so they resolve to the same cache entry; determinism and purity hold
because `canon` is a function of its input alone. -/
theorem canonicalize_structural_eq (a b : JsonVal) (h : StructEq a b) :
    canon a = canon b :=
  canon_structEq h

/-- An object key with properties in one insertion order. -/
def c8a : JsonVal :=
  JsonVal.obj [("alterego", JsonVal.str "Bruce Wayne"), ("id", JsonVal.num 1)]

/-- The same object key with its properties inserted in the opposite
order. -/
def c8b : JsonVal :=
  JsonVal.obj [("id", JsonVal.num 1), ("alterego", JsonVal.str "Bruce Wayne")]

/-- Witness for C8: the two property orders are structurally equal and
canonicalize to the same canonical key. -/
theorem canonicalize_structural_eq_witness :
    Nonempty (StructEq c8a c8b) ∧ canon c8a = canon c8b :=
  have h : StructEq c8a c8b :=
    StructEq.objPerm (List.Perm.swap ("id", JsonVal.num 1)
      ("alterego", JsonVal.str "Bruce Wayne") [])
  ⟨⟨h⟩, canonicalize_structural_eq c8a c8b h⟩

/-! ## C10: the details screen dereferences data only when it is present -/

/-- An entry is render-safe for the superhero-details scenario: it is
neither `Idle` nor `Error`, and when it is `Success` its data is
present. -/
def SafeE (e : Entry α) : Prop :=
  e.status ≠ Status.idle ∧ e.status ≠ Status.error ∧
    (e.status = Status.success → e.data.isSome = true)

/-- Render safety at one key: every entry stored under `k` is
render-safe, while entries under other keys are unconstrained. -/
def SafeInvK (k : String) (c : Cache α) : Prop :=
  ∀ p ∈ c.entries, p.1 = k → SafeE p.2

theorem findEntry_mem_key {k : String} {c : Cache α} {e : Entry α}
    (h : findEntry k c = some e) : ∃ p ∈ c.entries, p.1 = k ∧ p.2 = e := by
  simp only [findEntry, Option.map_eq_some'] at h
  obtain ⟨p, hp, hpe⟩ := h
  refine ⟨p, List.mem_of_find?_eq_some hp, ?_, hpe⟩
  have hbeq := List.find?_some hp
  simpa using hbeq

theorem SafeInvK_setEntry {k k2 : String} {f : Entry α → Entry α}
    {l : List (String × Entry α)}
    (hf : k2 = k → ∀ e, SafeE e → SafeE (f e))
    (h : ∀ p ∈ l, p.1 = k → SafeE p.2) :
    ∀ p ∈ setEntry k2 f l, p.1 = k → SafeE p.2 := by
  intro p hp hpk
  simp only [setEntry, List.mem_map] at hp
  obtain ⟨q, hq, hpq⟩ := hp
  subst hpq
  by_cases hb : (q.1 == k2) = true
  · rw [if_pos hb] at hpk ⊢
    have hq1 : q.1 = k2 := by simpa using hb
    have hk2 : k2 = k := by rw [← hq1]; exact hpk
    exact hf hk2 q.2 (h q hq hpk)
  · rw [if_neg hb] at hpk ⊢
    exact h q hq hpk

theorem SafeInvK_apply {k : String} {op : Op α} {c : Cache α}
    (hop : goodOpAt k op = true) (h : SafeInvK k c) :
    SafeInvK k (applyOp op c) := by
  cases op with
  | sub k2 cfg =>
      cases hfe : findEntry k2 c with
      | none =>
          cases hen : cfg.enabled with
          | true =>
              simp only [applyOp, subscribeOp, hfe, hen, if_true]
              intro p hp hpk
              rcases List.mem_append.mp hp with hp | hp
              · exact h p hp hpk
              · simp only [List.mem_singleton] at hp
                subst hp
                exact ⟨fun hcon => (nomatch hcon), fun hcon => (nomatch hcon),
                  fun hs => (nomatch hs)⟩
          | false =>
              simp only [applyOp, subscribeOp, hfe, hen, Bool.false_eq_true,
                if_false]
              intro p hp hpk
              rcases List.mem_append.mp hp with hp | hp
              · exact h p hp hpk
              · simp only [List.mem_singleton] at hp
                subst hp
                exfalso
                have hk2 : k2 = k := hpk
                rw [hk2] at hop
                simp [goodOpAt, hen] at hop
      | some e =>
          simp only [applyOp, subscribeOp, hfe]
          split
          · cases e.inFlight with
            | some q => exact SafeInvK_setEntry (fun _ _ he => he) h
            | none =>
                exact SafeInvK_setEntry (fun _ _ he => he)
                  (SafeInvK_setEntry (fun _ _ he => he) h)
          · exact SafeInvK_setEntry (fun _ _ he => he) h
  | unsub k2 => exact SafeInvK_setEntry (fun _ _ he => he) h
  | complete k2 seq res =>
      cases res with
      | error err =>
          cases hfe : findEntry k2 c with
          | none => simpa only [applyOp, completeOp, hfe] using h
          | some e =>
              simp only [applyOp, completeOp, hfe]
              split
              · refine SafeInvK_setEntry ?_ h
                intro hk2 e0 he0
                exfalso
                rw [hk2] at hop
                simp [goodOpAt] at hop
              · exact h
      | ok d =>
          cases hfe : findEntry k2 c with
          | none => simpa only [applyOp, completeOp, hfe] using h
          | some e =>
              simp only [applyOp, completeOp, hfe]
              split
              · refine SafeInvK_setEntry ?_ h
                intro _ e0 he0
                exact ⟨fun hcon => (nomatch hcon), fun hcon => (nomatch hcon),
                  fun _ => rfl⟩
              · exact h
  | inval k2 =>
      cases hfe : findEntry k2 c with
      | none => simpa only [applyOp, invalidateOp, hfe] using h
      | some e =>
          simp only [applyOp, invalidateOp, hfe]
          split
          · exact SafeInvK_setEntry (fun _ _ he => he) h
          · cases e.inFlight with
            | some q => exact SafeInvK_setEntry (fun _ _ he => he) h
            | none =>
                exact SafeInvK_setEntry (fun _ _ he => he)
                  (SafeInvK_setEntry (fun _ _ he => he) h)
  | setD k2 f =>
      simp only [applyOp, setDataOp]
      show ∀ p ∈ setEntry k2 (fun e => { e with data := some (f e.data) })
        c.entries, p.1 = k → SafeE p.2
      refine SafeInvK_setEntry ?_ h
      intro _ e0 he0
      exact ⟨he0.1, he0.2.1, fun _ => rfl⟩
  | refetchK k2 =>
      cases hfe : findEntry k2 c with
      | none => simpa only [applyOp, refetchOp, hfe] using h
      | some e =>
          simp only [applyOp, refetchOp, hfe]
          cases e.inFlight with
          | some q => exact h
          | none => exact SafeInvK_setEntry (fun _ _ he => he) h
  | trig t k2 cfg =>
      cases hen : cfg.enabled with
      | false =>
          simpa only [applyOp, triggerOp, hen, Bool.false_eq_true, if_false]
            using h
      | true =>
          cases hfe : findEntry k2 c with
          | none => simpa only [applyOp, triggerOp, hen, if_true, hfe] using h
          | some e =>
              simp only [applyOp, triggerOp, hen, if_true, hfe]
              split
              · cases e.inFlight with
                | some q => exact h
                | none => exact SafeInvK_setEntry (fun _ _ he => he) h
              · exact h
  | tick dt => exact fun p hp hpk => h p (List.mem_of_mem_filter hp) hpk

theorem SafeInvK_runOps {k : String} {ops : List (Op α)}
    (hops : ops.all (goodOpAt k) = true) {c : Cache α} (h : SafeInvK k c) :
    SafeInvK k (runOps ops c) := by
  induction ops generalizing c with
  | nil => exact h
  | cons op t ih =>
      rw [List.all_cons, Bool.and_eq_true] at hops
      exact ih hops.2 (SafeInvK_apply hops.1 h)

/-- The trace exhibiting the unguarded branch of `renderDetails`: the
fetch for the details key fails. -/
def c10BadTrace : List (Op Hero) :=
  [Op.sub "super-here-1" defCfg,
   Op.complete "super-here-1" 1 (Except.error "Request failed with status code 404")]

/-- The entry reached by `c10BadTrace`. -/
def c10BadEntry : Entry Hero :=
  { status := Status.error, data := none
    error := some "Request failed with status code 404", updatedAt := 0
    isFetching := false, staleTime := 0, cacheTime := 300000
    subscriberCount := 1, inFlight := none, evictAt := none, invalid := false
    lastAppliedSeq := 1 }

/-- C10: the `RqSuperHeroDetails` render dereferences the fetched record
whenever `isLoading` is false, with no error or presence guard.  Under the
per-key precondition that every subscription to the details key is enabled
and every completed fetch for that key succeeded — fetches and
subscriptions for every other key are unconstrained and may fail — every
reachable snapshot of that key with `isLoading = false` carries present
data, so the render never dereferences an absent value.  Without that
precondition the access is unguarded: after a failed fetch for the key the
snapshot has `isLoading = false` and absent data, and the render crashes
(modelled as `none`). -/
theorem render_details_guarded :
    (∀ (ops : List (Op Hero)) (k : String), ops.all (goodOpAt k) = true →
      ∀ (e : Entry Hero),
        findEntry k (runOps ops (Cache.init Hero)) = some e →
        (snapshot e).isLoading = false →
        (renderDetails (snapshot e)).isSome = true) ∧
    (findEntry "super-here-1" (runOps c10BadTrace (Cache.init Hero)) =
        some c10BadEntry ∧
      (snapshot c10BadEntry).isLoading = false ∧
      renderDetails (snapshot c10BadEntry) = none) := by
  constructor
  · intro ops k hops e he hl
    have hinv : SafeInvK k (runOps ops (Cache.init Hero)) :=
      SafeInvK_runOps hops (by intro p hp; simp [Cache.init] at hp)
    obtain ⟨p, hp, hpk, hpe⟩ := findEntry_mem_key he
    have hse : SafeE e := hpe ▸ hinv p hp hpk
    have hnl : e.status ≠ Status.loading := by
      intro hcon
      simp [snapshot, hcon] at hl
    have hsucc : e.status = Status.success := by
      cases hst : e.status with
      | idle => exact absurd hst hse.1
      | loading => exact absurd hst hnl
      | success => rfl
      | error => exact absurd hst hse.2.1
    have hdata := hse.2.2 hsucc
    cases hd : e.data with
    | none => rw [hd] at hdata; exact absurd hdata (by simp)
    | some hero => simp [renderDetails, snapshot, hsucc, hd]
  · exact ⟨by decide, by decide, by decide⟩

/-- The trace for the C10 witness: the fetch for the details key
succeeds, while the fetch for the unrelated list key fails — the per-key
precondition still holds for the details key. -/
def c10GoodTrace : List (Op Hero) :=
  [Op.sub "super-heros" defCfg,
   Op.sub "super-here-1" defCfg,
   Op.complete "super-heros" 1 (Except.error "Request failed with status code 404"),
   Op.complete "super-here-1" 2 (Except.ok ⟨"Batman", "Bruce Wayne"⟩)]

/-- The entry reached for the details key by `c10GoodTrace`. -/
def c10GoodEntry : Entry Hero :=
  { status := Status.success, data := some ⟨"Batman", "Bruce Wayne"⟩
    error := none, updatedAt := 0
    isFetching := false, staleTime := 0, cacheTime := 300000
    subscriberCount := 1, inFlight := none, evictAt := none, invalid := false
    lastAppliedSeq := 2 }

/-- Witness for C10: on a trace where the details key's fetch succeeds
even though another key's fetch fails, the non-loading snapshot of the
details key renders without dereferencing an absent value. -/
theorem render_details_guarded_witness :
    (renderDetails (snapshot c10GoodEntry)).isSome = true :=
  render_details_guarded.1 c10GoodTrace "super-here-1" (by decide)
    c10GoodEntry (by decide) (by decide)

end ReactQuery
